import Mathlib

/-!
# cmd-ford: directory sizes

A shallow embedding of `src/main.go` and the properties of its three functions:
`formatSize`, `getDirSize` and `main`.

Modelling decisions, all visible in the definitions below.

* `int64` values are integers, and every `+=` on an `int64` accumulator is followed by
  `wrap64`, the reduction modulo 2^64 that Go performs on signed overflow.
* The package-level flags `recursive` and `humanReadable` are the fields of `Flags`.
* A directory tree is a value of `Entry`.  `filepath.WalkDir` is the function `walkDir`:
  it reports the root, and then, for a directory, every entry of the directory in order,
  each one walked in the same way.  The callback of `getDirSize` returns `nil` on every
  path, so the walk is never cut short, and every directory is taken to be listable.
* A goroutine started with `go getDirSize(path, results)` sends one `dirInfo` on `results`.
  The receiving loop sees the results of the goroutines it started in an order it does not
  control: that order is the parameter `sched`, a function that rearranges the list of
  pending results.  Theorems quantify over every `sched` that permutes its argument.
* Recursion of `getDirSize` into the goroutines it starts is bounded by a fuel argument in
  `getDirSizeFuel`; `getDirSize` supplies the height of the tree plus one, which is shown
  to be enough.
-/

namespace Ford

/-! ## Machine integers -/

/-- Reduction of an integer modulo 2^64 to the range of `int64`. -/
def wrap64 (x : Int) : Int :=
  (x + 9223372036854775808) % 18446744073709551616 - 9223372036854775808

/-- The values an `int64` can hold. -/
def inInt64 (x : Int) : Prop :=
  -9223372036854775808 ≤ x ∧ x < 9223372036854775808

instance (x : Int) : Decidable (inInt64 x) := by
  unfold inInt64; infer_instance

/-! ## Constants and flags (main.go, lines 13 to 30) -/

def K : Int := 1000
def M : Int := 1000 * K
def G : Int := 1000 * M
def T : Int := 1000 * G
def P : Int := 1000 * T

/-- The two boolean flags read by `getDirSize` and `formatSize`. -/
structure Flags where
  recursive : Bool
  humanReadable : Bool
deriving DecidableEq, Repr

/-- The struct `dirInfo` of main.go. -/
structure dirInfo where
  path : String
  size : Int
deriving DecidableEq, Repr

/-! ## formatSize (main.go, lines 90 to 106) -/

/-- The verb `%d` of `fmt.Sprintf` applied to an `int64`. -/
def sprintD (n : Int) : String := toString n

/-- The function `formatSize`.  In Go `/` on integers truncates towards zero, which is
`Int.tdiv`. -/
def formatSize (humanReadable : Bool) (size : Int) : String :=
  if !humanReadable then
    sprintD size
  else if size < K then
    sprintD size
  else if size < M then
    sprintD (size.tdiv K) ++ "K"
  else if size < G then
    sprintD (size.tdiv M) ++ "M"
  else if size < T then
    sprintD (size.tdiv G) ++ "G"
  else if size < P then
    sprintD (size.tdiv T) ++ "T"
  else
    sprintD (size.tdiv P) ++ "P"

/-! ## The file system -/

/-- An entry of a directory, as `fs.DirEntry` shows it to the callback of `WalkDir`.
A `file` is any entry for which `IsDir()` is false; `info` is the size that `d.Info()`
reports, or `none` when `d.Info()` returns an error.  A `dir` lists its entries. -/
inductive Entry where
  | file (name : String) (info : Option Int)
  | dir (name : String) (entries : List Entry)

namespace Entry

/-- The method `Name()`. -/
def Name : Entry → String
  | file n _ => n
  | dir n _ => n

/-- The method `IsDir()`. -/
def IsDir : Entry → Bool
  | file _ _ => false
  | dir _ _ => true

/-- The size obtained through `Info()`, `none` when `Info()` fails.  The callback asks for
it on entries that are not directories only; for a directory the value is never read. -/
def Info : Entry → Option Int
  | file _ i => i
  | dir _ _ => some 0

/-- The entries of a directory (none for a file). -/
def entries : Entry → List Entry
  | file _ _ => []
  | dir _ es => es

end Entry

/-- The path of an entry `name` of the directory `path`, as `filepath.Join` builds it. -/
def joinPath (path name : String) : String := path ++ "/" ++ name

mutual
/-- The calls that `filepath.WalkDir` makes to its callback when the callback always
returns `nil`: first the entry itself, then, for a directory, the walk of each of its
entries. -/
def walkDir (path : String) : Entry → List (String × Entry)
  | .file n i => [(path, .file n i)]
  | .dir n es => (path, .dir n es) :: walkEntries path es
/-- The walk of the entries of the directory `path`. -/
def walkEntries (path : String) : List Entry → List (String × Entry)
  | [] => []
  | e :: es => walkDir (joinPath path e.Name) e ++ walkEntries path es
end

/-! ## getDirSize (main.go, lines 110 to 145) -/

/-- The variables of `getDirSize` that its walk callback updates, and the goroutines the
callback has started (the directory each one was given). -/
structure WalkState where
  acc : Int
  counter : Nat
  spawned : List (String × Entry)

/-- The callback passed to `filepath.WalkDir` (lines 115 to 132), for one call. -/
def walkFn (dir : String) (st : WalkState) (v : String × Entry) : WalkState :=
  if v.1 = dir then
    st
  else if !v.2.IsDir then
    match v.2.Info with
    | none => st
    | some size => { st with acc := wrap64 (st.acc + size) }
  else
    { st with counter := st.counter + 1, spawned := st.spawned ++ [v] }

/-- The line printed for a child result when `recursive` is set (line 138). -/
def subdirLine (fl : Flags) (info : dirInfo) : String :=
  "The size of the subdirectory \"" ++ info.path ++ "\" is "
    ++ formatSize fl.humanReadable info.size ++ " bytes.\n"

/-- The loop `for counter > 0` (lines 134 to 141): `arrivals` are the results in the order
in which they are received.  With no result left and `counter > 0` the receive blocks for
ever, which is `none`. -/
def collect (fl : Flags) : Nat → List dirInfo → Int → List String → Option (Int × List String)
  | 0, _, acc, out => some (acc, out)
  | _ + 1, [], _, _ => none
  | counter + 1, info :: rest, acc, out =>
    collect fl counter rest (wrap64 (acc + info.size))
      (if fl.recursive then out ++ [subdirLine fl info] else out)

/-- What one call of `getDirSize` did. -/
structure Task where
  /-- The value of `counter` when the walk returns. -/
  counter : Nat
  /-- The directories given to `go getDirSize`, in the order of the walk. -/
  spawned : List String
  /-- The lines this call printed. -/
  printed : List String
  /-- The value sent on `res`. -/
  sent : dirInfo
  /-- The number of calls of `getDirSize` made for this one: itself and every call made for
  the goroutines it started. -/
  calls : Nat
deriving DecidableEq, Repr

/-- Turn a list of optional values into the list of values, if none is missing. -/
def allSome {α : Type} : List (Option α) → Option (List α)
  | [] => some []
  | none :: _ => none
  | some a :: rest =>
    match allSome rest with
    | none => none
    | some as => some (a :: as)

/-- The function `getDirSize` with a bound on the depth of the goroutines it starts. -/
def getDirSizeFuel (fl : Flags) (sched : String → List dirInfo → List dirInfo) :
    Nat → String → Entry → Option Task
  | 0, _, _ => none
  | fuel + 1, dir, root =>
    let st := (walkDir dir root).foldl (walkFn dir) { acc := 0, counter := 0, spawned := [] }
    match allSome (st.spawned.map fun v => getDirSizeFuel fl sched fuel v.1 v.2) with
    | none => none
    | some kids =>
      match collect fl st.counter (sched dir (kids.map Task.sent)) st.acc [] with
      | none => none
      | some (acc, printed) =>
        some { counter := st.counter
               spawned := st.spawned.map Prod.fst
               printed := printed
               sent := { path := dir, size := acc }
               calls := 1 + (kids.map Task.calls).sum }

mutual
/-- The number of directory levels of an entry: 0 for a file. -/
def Entry.height : Entry → Nat
  | .file _ _ => 0
  | .dir _ es => heightList es + 1
/-- The largest height among the entries of a list. -/
def heightList : List Entry → Nat
  | [] => 0
  | e :: es => max e.height (heightList es)
end

/-- The function `getDirSize`: `dir` is the path it is given and `root` the tree found
there. -/
def getDirSize (fl : Flags) (sched : String → List dirInfo → List dirInfo)
    (dir : String) (root : Entry) : Option Task :=
  getDirSizeFuel fl sched (root.height + 1) dir root

/-! ## main (main.go, lines 38 to 88) -/

/-- A message one of the goroutines started by `main` sends: a `dirInfo` on `results` or a
string on `errs`. -/
inductive Msg where
  | result (d : dirInfo)
  | err (e : String)
deriving DecidableEq, Repr

/-- The state of the first loop of `main`: the messages that the goroutines started so far
send, and the lines printed. -/
structure Launch where
  msgs : List Msg
  out : List String

/-- The text sent on `errs` for a path that `os.Stat` cannot find (line 59).  The goroutine
reads the loop variable `path`; it is taken to hold the path of its own iteration (as it
does from Go 1.22 on).  No property below depends on the text. -/
def missingLine (path : String) : String :=
  "Error: The directory \"" ++ path ++ "\" does not exist.\n"

/-- The line printed for a path that is not a directory (line 66). -/
def notDirLine (name : String) : String :=
  "Error: \"" ++ name ++ "\" is not a directory. Please specify directories only!\n"

/-- One iteration of the loop over `paths` (lines 54 to 72).  `stat` is `os.Stat`: `none`
when it returns an error, else the entry found at the path. -/
def launchStep (fl : Flags) (sched : String → List dirInfo → List dirInfo)
    (stat : String → Option Entry) (st : Launch) (path : String) : Launch :=
  match stat path with
  | none => { st with msgs := st.msgs ++ [Msg.err (missingLine path)] }
  | some fileInfo =>
    if !fileInfo.IsDir then
      { st with out := st.out ++ [notDirLine fileInfo.Name] }
    else
      match getDirSize fl sched path fileInfo with
      | none => st
      | some t => { st with msgs := st.msgs ++ [Msg.result t.sent] }

/-- The variables of `main` that its second loop updates: `acc`, the lines printed and the
lines logged. -/
structure MainState where
  acc : Int
  out : List String
  log : List String
deriving DecidableEq, Repr

/-- The line printed for a top-level result (line 77). -/
def dirLine (fl : Flags) (d : dirInfo) : String :=
  "The size of the directory \"" ++ d.path ++ "\" is "
    ++ formatSize fl.humanReadable d.size ++ " bytes.\n"

/-- The last line `main` prints (line 87). -/
def totalLine (fl : Flags) (acc : Int) : String :=
  "The cumulative size of all specified directories is "
    ++ formatSize fl.humanReadable acc ++ " bytes.\n"

/-- One `select` (lines 75 to 81) that receives `m`. -/
def receive (fl : Flags) (st : MainState) : Msg → MainState
  | .result d => { st with out := st.out ++ [dirLine fl d], acc := wrap64 (st.acc + d.size) }
  | .err e => { st with log := st.log ++ [e] }

/-- The loop `for i := 0; i < len(paths); i++` (lines 74 to 82), with `n` iterations left
and `arrivals` the messages in the order in which `select` receives them.  The result is
the state when the loop stops and whether it ran all its iterations: with an iteration
left and no message left, `select` blocks for ever. -/
def mainLoop (fl : Flags) : Nat → List Msg → MainState → MainState × Bool
  | 0, _, st => (st, true)
  | _ + 1, [], st => (st, false)
  | n + 1, m :: rest, st => mainLoop fl n rest (receive fl st m)

/-- What a run of `main` did. -/
structure Run where
  /-- The number of iterations the second loop is set to make, `len(paths)`. -/
  iterations : Nat
  /-- The messages sent by the goroutines that the first loop started. -/
  msgs : List Msg
  /-- The value of `acc` when the second loop stops. -/
  acc : Int
  /-- The lines printed by `main` itself. -/
  out : List String
  /-- The lines logged. -/
  log : List String
  /-- Whether `main` returned (it does not when the second loop blocks). -/
  returned : Bool
deriving DecidableEq, Repr

/-- The body of `main` from line 49 on, for the list `paths` that `strings.Split` gave.
`arrive` is the order in which the second loop receives the messages. -/
def dispatcher (fl : Flags) (sched : String → List dirInfo → List dirInfo)
    (arrive : List Msg → List Msg) (stat : String → Option Entry)
    (paths : List String) : Run :=
  let l := paths.foldl (launchStep fl sched stat) { msgs := [], out := [] }
  let r := mainLoop fl paths.length (arrive l.msgs) { acc := 0, out := l.out, log := [] }
  { iterations := paths.length
    msgs := l.msgs
    acc := r.1.acc
    out := if r.2 then r.1.out ++ [totalLine fl r.1.acc] else r.1.out
    log := r.1.log
    returned := r.2 }

/-- The function `main`, `dirs` being the value of the flag of that name. -/
def main (fl : Flags) (sched : String → List dirInfo → List dirInfo)
    (arrive : List Msg → List Msg) (stat : String → Option Entry) (dirs : String) : Run :=
  if dirs = "" then
    { iterations := 0, msgs := [], acc := 0, log := [], returned := true
      out := ["Error: Please specify a list of directories separated by commas.\n"] }
  else
    dispatcher fl sched arrive stat (dirs.splitOn ",")

/-! ## Quantities in which the properties are stated, and example inputs -/

/-- The size a call of the callback adds to `acc`. -/
def visitSize (v : String × Entry) : Int :=
  match v.2 with
  | .file _ (some size) => size
  | _ => 0

/-- The sum of the sizes the callback adds to `acc` over a list of calls. -/
def fileSum (vs : List (String × Entry)) : Int := (vs.map visitSize).sum

/-- The calls of the callback that are made for a directory. -/
def dirsOf (vs : List (String × Entry)) : List (String × Entry) :=
  vs.filter fun v => v.2.IsDir

mutual
/-- The files below an entry whose `Info()` succeeds, each with its size and the number of
directories that lie between the root of the walk and the file, the entry itself being
`k` directories below that root. -/
def filesAt (k : Nat) : Entry → List (Int × Nat)
  | .file _ none => []
  | .file _ (some size) => [(size, k)]
  | .dir _ es => filesIn (k + 1) es
/-- The files below the entries of a directory that is `k` directories below the root. -/
def filesIn (k : Nat) : List Entry → List (Int × Nat)
  | [] => []
  | e :: es => filesAt k e ++ filesIn k es
end

/-- The sum of `size * 2 ^ k` over a list of files with their depth. -/
def weighted (fs : List (Int × Nat)) : Int := (fs.map fun f => f.1 * 2 ^ f.2).sum

/-- The sum over the files below `root` of `size * 2 ^ k`, `k` being the number of
directories strictly between `root` and the file. -/
def doubledSize (root : Entry) : Int := weighted (filesIn 0 root.entries)

/-- The sum of `doubledSize` over the directories of a list of calls. -/
def doubledSum (vs : List (String × Entry)) : Int :=
  ((dirsOf vs).map fun v => doubledSize v.2).sum

/-- The result a started goroutine sends, as the parent receives it. -/
def childResult (v : String × Entry) : dirInfo :=
  { path := v.1, size := wrap64 (doubledSize v.2) }

/-- The units of the human-readable format with their suffixes: bytes, K, M, G, T and P. -/
def units : List (Int × String) :=
  [(1, ""), (1000, "K"), (1000000, "M"), (1000000000, "G"), (1000000000000, "T"),
    (1000000000000000, "P")]

/-- The results among a list of messages. -/
def resultsOf (l : List Msg) : List dirInfo :=
  l.filterMap fun m => match m with
    | .result d => some d
    | .err _ => none

/-- The error texts among a list of messages. -/
def errsOf (l : List Msg) : List String :=
  l.filterMap fun m => match m with
    | .result _ => none
    | .err e => some e

/-- The result that the goroutine started for `path` sends: there is one exactly when
`path` is a directory. -/
def resultFor (stat : String → Option Entry) (path : String) : Option dirInfo :=
  match stat path with
  | none => none
  | some e => if e.IsDir then some { path := path, size := wrap64 (doubledSize e) } else none

/-- The message that the goroutine started for `path` sends, if one is started. -/
def sentFor (stat : String → Option Entry) (path : String) : Option Msg :=
  match stat path with
  | none => some (Msg.err (missingLine path))
  | some e => if e.IsDir then some (Msg.result { path := path, size := wrap64 (doubledSize e) })
      else none

/-- The line printed in the first loop for `path`, if any. -/
def inlineFor (stat : String → Option Entry) (path : String) : Option String :=
  match stat path with
  | none => none
  | some e => if e.IsDir then none else some (notDirLine e.Name)

/-- The order of arrival that is the order in which the goroutines were started. -/
def inOrder : String → List dirInfo → List dirInfo := fun _ l => l

/-- The directory `A/B` of the end-to-end example: one file of 2000 bytes. -/
def exampleB : Entry := .dir "B" [.file "g" (some 2000)]

/-- The directory `A` of the end-to-end example: a file of 500 bytes and `B`. -/
def exampleA : Entry := .dir "A" [.file "f" (some 500), exampleB]

/-- A file system with the directory `A`, the regular file `notes.txt`, and nothing else. -/
def exampleStat : String → Option Entry := fun p =>
  if p = "A" then some exampleA
  else if p = "notes.txt" then some (.file "notes.txt" (some 3))
  else none

/-- The size of a file as the callback reads it: nothing when `Info()` fails. -/
def Entry.fileSize : Entry → Int
  | .file _ (some size) => size
  | _ => 0

/-- The sum of the sizes of the files directly in a directory with entries `es`. -/
def directSum (es : List Entry) : Int := (es.map Entry.fileSize).sum

/-- The immediate subdirectories among the entries `es`. -/
def childDirs (es : List Entry) : List Entry := es.filter Entry.IsDir

mutual
/-- The number of directories in a tree, its root included. -/
def Entry.dirCount : Entry → Nat
  | .file _ _ => 0
  | .dir _ es => dirCountList es + 1
/-- The number of directories in the trees of a list. -/
def dirCountList : List Entry → Nat
  | [] => 0
  | e :: es => e.dirCount + dirCountList es
end

/-- The entries `gs` are the entries `es` with one entry taken out, at any depth below
them: an entry that is not a directory and whose `Info()` fails. -/
inductive Without : List Entry → List Entry → Prop
  | here (before after : List Entry) (name : String) :
      Without (before ++ Entry.file name none :: after) (before ++ after)
  | inside (before after : List Entry) (name : String) {es gs : List Entry} :
      Without es gs →
        Without (before ++ Entry.dir name es :: after) (before ++ Entry.dir name gs :: after)

/-- A chain of three directories, `A/B/C`, with no file. -/
def exampleChain : Entry := .dir "A" [.dir "B" [.dir "C" []]]

/-- A directory with two files of 2^62 bytes each. -/
def exampleHuge : Entry :=
  .dir "D" [.file "a" (some 4611686018427387904), .file "b" (some 4611686018427387904)]

/-- A directory whose only entry is a directory with one file of 2^62 bytes. -/
def exampleDeep : Entry := .dir "A" [.dir "B" [.file "f" (some 4611686018427387904)]]

/-! ## Arithmetic of `wrap64` -/

theorem wrap64_of_inInt64 {x : Int} (h : inInt64 x) : wrap64 x = x := by
  unfold inInt64 at h; unfold wrap64; omega

theorem wrap64_inInt64 (x : Int) : inInt64 (wrap64 x) := by
  unfold inInt64 wrap64; omega

theorem wrap64_wrap64 (x : Int) : wrap64 (wrap64 x) = wrap64 x :=
  wrap64_of_inInt64 (wrap64_inInt64 x)

theorem wrap64_add_wrap64_left (a b : Int) : wrap64 (wrap64 a + b) = wrap64 (a + b) := by
  unfold wrap64; omega

theorem wrap64_add_sum_map_wrap64 {α : Type} (f : α → Int) (l : List α) (a : Int) :
    wrap64 (a + (l.map fun x => wrap64 (f x)).sum) = wrap64 (a + (l.map f).sum) := by
  induction l generalizing a with
  | nil => simp
  | cons x l ih =>
    simp only [List.map_cons, List.sum_cons]
    rw [← add_assoc, ih, ← add_assoc, add_comm a, add_assoc, wrap64_add_wrap64_left,
      ← add_assoc, add_comm (f x)]

/-! ## The receiving loop of `getDirSize` -/

theorem collect_eq (fl : Flags) (l : List dirInfo) (acc : Int) (out : List String)
    (hacc : wrap64 acc = acc) :
    collect fl l.length l acc out
      = some (wrap64 (acc + (l.map dirInfo.size).sum),
          out ++ (if fl.recursive then l.map (subdirLine fl) else [])) := by
  induction l generalizing acc out with
  | nil => simp [collect, hacc]
  | cons info rest ih =>
    simp only [List.length_cons, collect, List.map_cons, List.sum_cons]
    rw [ih _ _ (wrap64_wrap64 _), wrap64_add_wrap64_left, add_assoc]
    cases fl.recursive <;> simp

/-! ## The walk -/

theorem walkFn_of_ne (dir : String) (st : WalkState) (v : String × Entry) (h : v.1 ≠ dir) :
    walkFn dir st v =
      { acc := if v.2.IsDir then st.acc else
                 match v.2.Info with
                 | none => st.acc
                 | some size => wrap64 (st.acc + size)
        counter := st.counter + (dirsOf [v]).length
        spawned := st.spawned ++ dirsOf [v] } := by
  obtain ⟨p, e⟩ := v
  cases e with
  | file n i => cases i <;> simp [walkFn, h, Entry.IsDir, Entry.Info, dirsOf]
  | dir n es => simp [walkFn, h, Entry.IsDir, dirsOf]

theorem foldl_walkFn (dir : String) (vs : List (String × Entry))
    (h : ∀ v ∈ vs, v.1 ≠ dir) (st : WalkState) (hst : wrap64 st.acc = st.acc) :
    vs.foldl (walkFn dir) st =
      { acc := wrap64 (st.acc + fileSum vs)
        counter := st.counter + (dirsOf vs).length
        spawned := st.spawned ++ dirsOf vs } := by
  induction vs generalizing st with
  | nil => simp [fileSum, dirsOf, hst]
  | cons v vs ih =>
    have hv : v.1 ≠ dir := h v (List.mem_cons_self _ _)
    have hvs : ∀ w ∈ vs, w.1 ≠ dir := fun w hw => h w (List.mem_cons_of_mem _ hw)
    rw [List.foldl_cons, walkFn_of_ne dir st v hv]
    obtain ⟨p, e⟩ := v
    cases e with
    | file n i =>
      cases i with
      | none =>
        rw [ih hvs _ (by simpa using hst)]
        simp [fileSum, visitSize, dirsOf, Entry.IsDir, Entry.Info]
      | some s =>
        rw [ih hvs _ (by simpa [Entry.IsDir, Entry.Info] using wrap64_wrap64 _)]
        simp [fileSum, visitSize, dirsOf, Entry.IsDir, Entry.Info, wrap64_add_wrap64_left, add_assoc]
    | dir n es =>
      rw [ih hvs _ (by simpa [Entry.IsDir] using hst)]
      simp [fileSum, visitSize, dirsOf, Entry.IsDir, add_assoc, add_comm]

theorem joinPath_length (path name : String) :
    (joinPath path name).length = path.length + 1 + name.length := by
  simp [joinPath, String.length_append]
  rfl

mutual
theorem walkDir_length (path : String) :
    ∀ e : Entry, ∀ v ∈ walkDir path e, path.length ≤ v.1.length
  | .file n i => by
    intro v h
    simp only [walkDir, List.mem_singleton] at h
    subst h; exact Nat.le_refl _
  | .dir n es => by
    intro v h
    simp only [walkDir, List.mem_cons] at h
    rcases h with h | h
    · subst h; exact Nat.le_refl _
    · exact Nat.le_of_lt (walkEntries_length path es v h)
theorem walkEntries_length (path : String) :
    ∀ es : List Entry, ∀ v ∈ walkEntries path es, path.length < v.1.length
  | [] => by intro v h; simp [walkEntries] at h
  | e :: es => by
    intro v h
    simp only [walkEntries, List.mem_append] at h
    rcases h with h | h
    · have h1 := walkDir_length (joinPath path e.Name) e v h
      rw [joinPath_length] at h1
      omega
    · exact walkEntries_length path es v h
end

theorem walkEntries_ne (path : String) (es : List Entry) :
    ∀ v ∈ walkEntries path es, v.1 ≠ path := by
  intro v h heq
  have := walkEntries_length path es v h
  rw [heq] at this
  exact Nat.lt_irrefl _ this

theorem walkDir_root (dir : String) (root : Entry) :
    walkDir dir root = (dir, root) :: walkEntries dir root.entries := by
  cases root <;> simp [walkDir, walkEntries, Entry.entries]

/-- The state of `getDirSize` when `filepath.WalkDir` returns. -/
theorem walk_state (dir : String) (root : Entry) :
    (walkDir dir root).foldl (walkFn dir) { acc := 0, counter := 0, spawned := [] } =
      { acc := wrap64 (fileSum (walkEntries dir root.entries))
        counter := (dirsOf (walkEntries dir root.entries)).length
        spawned := dirsOf (walkEntries dir root.entries) } := by
  rw [walkDir_root, List.foldl_cons]
  have h0 : walkFn dir { acc := 0, counter := 0, spawned := [] } (dir, root)
      = { acc := 0, counter := 0, spawned := [] } := by simp [walkFn]
  rw [h0, foldl_walkFn dir _ (walkEntries_ne dir _) _ (by decide)]
  simp

mutual
theorem walkDir_height (path : String) :
    ∀ e : Entry, ∀ v ∈ walkDir path e, v.2.height ≤ e.height
  | .file n i => by
    intro v h
    simp only [walkDir, List.mem_singleton] at h
    subst h; exact Nat.le_refl _
  | .dir n es => by
    intro v h
    simp only [walkDir, List.mem_cons] at h
    rcases h with h | h
    · subst h; exact Nat.le_refl _
    · have := walkEntries_height path es v h
      simp only [Entry.height]; omega
theorem walkEntries_height (path : String) :
    ∀ es : List Entry, ∀ v ∈ walkEntries path es, v.2.height ≤ heightList es
  | [] => by intro v h; simp [walkEntries] at h
  | e :: es => by
    intro v h
    simp only [walkEntries, List.mem_append] at h
    simp only [heightList]
    rcases h with h | h
    · have := walkDir_height (joinPath path e.Name) e v h
      omega
    · have := walkEntries_height path es v h
      omega
end

theorem spawned_height (dir : String) (root : Entry) :
    ∀ v ∈ dirsOf (walkEntries dir root.entries), v.2.height < root.height := by
  intro v h
  have hv : v ∈ walkEntries dir root.entries := (List.mem_filter.mp h).1
  cases root with
  | file n i => simp [Entry.entries, walkEntries] at hv
  | dir n es =>
    have := walkEntries_height dir es v hv
    simp only [Entry.height]; omega

/-! ## The size a call of getDirSize reports -/

theorem weighted_append (a b : List (Int × Nat)) :
    weighted (a ++ b) = weighted a + weighted b := by
  simp [weighted]

mutual
theorem weighted_filesAt_succ (k : Nat) :
    ∀ e : Entry, weighted (filesAt (k + 1) e) = 2 * weighted (filesAt k e)
  | .file _ none => by simp [filesAt, weighted]
  | .file _ (some size) => by simp [filesAt, weighted, pow_succ]; ring
  | .dir _ es => by
    simp only [filesAt]
    exact weighted_filesIn_succ (k + 1) es
theorem weighted_filesIn_succ (k : Nat) :
    ∀ es : List Entry, weighted (filesIn (k + 1) es) = 2 * weighted (filesIn k es)
  | [] => by simp [filesIn, weighted]
  | e :: es => by
    simp only [filesIn, weighted_append]
    rw [weighted_filesAt_succ k e, weighted_filesIn_succ k es]; ring
end

theorem fileSum_append (a b : List (String × Entry)) :
    fileSum (a ++ b) = fileSum a + fileSum b := by
  simp [fileSum]

theorem doubledSum_append (a b : List (String × Entry)) :
    doubledSum (a ++ b) = doubledSum a + doubledSum b := by
  simp [doubledSum, dirsOf]

mutual
theorem weighted_filesAt_walk (path : String) :
    ∀ e : Entry, weighted (filesAt 0 e) = fileSum (walkDir path e) + doubledSum (walkDir path e)
  | .file _ none => by simp [filesAt, weighted, walkDir, fileSum, visitSize, doubledSum, dirsOf, Entry.IsDir]
  | .file _ (some size) => by
    simp [filesAt, weighted, walkDir, fileSum, visitSize, doubledSum, dirsOf, Entry.IsDir]
  | .dir n es => by
    have ih := weighted_filesIn_walk path es
    have h1 : fileSum (walkDir path (.dir n es)) = fileSum (walkEntries path es) := by
      simp [walkDir, fileSum, visitSize]
    have h2 : doubledSum (walkDir path (.dir n es))
        = doubledSize (.dir n es) + doubledSum (walkEntries path es) := by
      simp [walkDir, doubledSum, dirsOf, Entry.IsDir]
    have h3 : doubledSize (.dir n es) = weighted (filesIn 0 es) := rfl
    rw [h1, h2, h3]
    simp only [filesAt]
    rw [weighted_filesIn_succ 0 es]
    omega
theorem weighted_filesIn_walk (path : String) :
    ∀ es : List Entry,
      weighted (filesIn 0 es) = fileSum (walkEntries path es) + doubledSum (walkEntries path es)
  | [] => by simp [filesIn, weighted, walkEntries, fileSum, doubledSum, dirsOf]
  | e :: es => by
    simp only [filesIn, walkEntries, weighted_append, fileSum_append, doubledSum_append]
    rw [weighted_filesAt_walk (joinPath path e.Name) e, weighted_filesIn_walk path es]
    ring
end

/-- What the walk adds up and what the started goroutines report make `doubledSize`. -/
theorem doubledSize_eq (dir : String) (root : Entry) :
    doubledSize root = fileSum (walkEntries dir root.entries)
      + doubledSum (walkEntries dir root.entries) :=
  weighted_filesIn_walk dir root.entries

theorem allSome_map_exists {α β γ : Type} (f : α → Option β) (h : β → γ) (k : α → γ)
    (l : List α) (hl : ∀ a ∈ l, ∃ b, f a = some b ∧ h b = k a) :
    ∃ bs, allSome (l.map f) = some bs ∧ bs.map h = l.map k := by
  induction l with
  | nil => exact ⟨[], rfl, rfl⟩
  | cons a l ih =>
    obtain ⟨b, hb, hk⟩ := hl a (List.mem_cons_self _ _)
    obtain ⟨bs, hbs, hm⟩ := ih fun c hc => hl c (List.mem_cons_of_mem _ hc)
    exact ⟨b :: bs, by simp [allSome, hb, hbs], by simp [hk, hm]⟩

/-- With enough fuel `getDirSizeFuel` returns, and what it sends is determined by the
tree, whatever the order in which the results of the goroutines arrive. -/
theorem getDirSizeFuel_sent (fl : Flags) (sched : String → List dirInfo → List dirInfo)
    (hs : ∀ d l, (sched d l).Perm l) :
    ∀ (fuel : Nat) (dir : String) (root : Entry), root.height < fuel →
      ∃ t, getDirSizeFuel fl sched fuel dir root = some t
        ∧ t.sent = { path := dir, size := wrap64 (doubledSize root) }
        ∧ t.counter = (dirsOf (walkEntries dir root.entries)).length
        ∧ t.spawned = (dirsOf (walkEntries dir root.entries)).map Prod.fst
        ∧ t.printed = if fl.recursive then
            (sched dir ((dirsOf (walkEntries dir root.entries)).map childResult)).map
              (subdirLine fl)
          else [] := by
  intro fuel
  induction fuel with
  | zero => intro dir root h; exact absurd h (Nat.not_lt_zero _)
  | succ fuel ih =>
    intro dir root h
    have hkids := allSome_map_exists
      (fun v : String × Entry => getDirSizeFuel fl sched fuel v.1 v.2) Task.sent childResult
      (dirsOf (walkEntries dir root.entries))
      (fun v hv => by
        have hh : v.2.height < fuel :=
          Nat.lt_of_lt_of_le (spawned_height dir root v hv) (Nat.le_of_lt_succ h)
        obtain ⟨t, ht, hsent, _⟩ := ih v.1 v.2 hh
        exact ⟨t, ht, hsent⟩)
    obtain ⟨kids, hk, hm⟩ := hkids
    have hperm := hs dir (kids.map Task.sent)
    have hlen : (dirsOf (walkEntries dir root.entries)).length
        = (sched dir (kids.map Task.sent)).length := by
      rw [hperm.length_eq, hm, List.length_map]
    have hsum : ((sched dir (kids.map Task.sent)).map dirInfo.size).sum
        = ((dirsOf (walkEntries dir root.entries)).map fun v => wrap64 (doubledSize v.2)).sum := by
      rw [(hperm.map dirInfo.size).sum_eq, hm, List.map_map]
      rfl
    simp only [getDirSizeFuel, walk_state, hk]
    rw [hlen, collect_eq fl _ _ _ (wrap64_wrap64 _)]
    refine ⟨_, rfl, ?_, rfl, rfl, ?_⟩
    · simp only [dirInfo.mk.injEq, true_and]
      rw [hsum, wrap64_add_wrap64_left, wrap64_add_sum_map_wrap64, doubledSize_eq dir root]
      rfl
    · rw [hm]; simp

/-- The function `getDirSize` returns for every tree. -/
theorem getDirSize_sent (fl : Flags) (sched : String → List dirInfo → List dirInfo)
    (hs : ∀ d l, (sched d l).Perm l) (dir : String) (root : Entry) :
    ∃ t, getDirSize fl sched dir root = some t
      ∧ t.sent = { path := dir, size := wrap64 (doubledSize root) }
      ∧ t.counter = (dirsOf (walkEntries dir root.entries)).length
      ∧ t.spawned = (dirsOf (walkEntries dir root.entries)).map Prod.fst :=  by
  obtain ⟨t, h1, h2, h3, h4, _⟩ :=
    getDirSizeFuel_sent fl sched hs (root.height + 1) dir root (Nat.lt_succ_self _)
  exact ⟨t, h1, h2, h3, h4⟩

/-! ## formatSize -/

theorem tdiv_eq_div {s u : Int} (hs : 0 ≤ s) (hu : 0 ≤ u) : s.tdiv u = s / u :=
  Int.tdiv_eq_ediv hs hu

/-- C4: with human-readable mode off, `formatSize s` is the decimal string of `s`, for
every integer `s` (the non-negative ones in particular), with no suffix and no scaling. -/
theorem formatSize_plain (s : Int) : formatSize false s = toString s := by
  simp [formatSize, sprintD]

/-- C3: with human-readable mode on and `0 ≤ s`, `formatSize s` is the decimal string of
`floor (s / U)` followed by the suffix of `U`, where `U` is the largest of the units
1, 10^3, 10^6, 10^9, 10^12, 10^15 that is at most `s` (`U = 1` when `s < 1000`).  Every
`s < 1000` is printed as its decimal string, 1000 gives "1K", 999999 gives "999K", 1000000
gives "1M", and every `s` from 10^18 on is still expressed in P. -/
theorem formatSize_human (s : Int) (hs : 0 ≤ s) :
    (∃ u ∈ units, (u.1 ≤ s ∨ (u.1 = 1 ∧ s < 1000)) ∧ (∀ v ∈ units, v.1 ≤ s → v.1 ≤ u.1)
        ∧ formatSize true s = toString (s / u.1) ++ u.2)
      ∧ (s < 1000 → formatSize true s = toString s)
      ∧ formatSize true 1000 = "1K"
      ∧ formatSize true 999999 = "999K"
      ∧ formatSize true 1000000 = "1M"
      ∧ (1000000000000000000 ≤ s →
          formatSize true s = toString (s / 1000000000000000) ++ "P") := by
  refine ⟨?_, ?_, by decide, by decide, by decide, ?_⟩
  · by_cases h1 : s < 1000
    · refine ⟨(1, ""), by simp [units], Or.inr ⟨rfl, h1⟩, ?_, ?_⟩
      · intro v hv hle
        simp only [units, List.mem_cons, List.mem_singleton, List.not_mem_nil, or_false] at hv
        rcases hv with rfl | rfl | rfl | rfl | rfl | rfl <;> dsimp only at hle ⊢ <;> omega
      · simp [formatSize, sprintD, K, h1]
    · by_cases h2 : s < 1000000
      · refine ⟨(1000, "K"), by simp [units], Or.inl (by simpa using h1), ?_, ?_⟩
        · intro v hv hle
          simp only [units, List.mem_cons, List.mem_singleton, List.not_mem_nil, or_false] at hv
          rcases hv with rfl | rfl | rfl | rfl | rfl | rfl <;> dsimp only at hle ⊢ <;> omega
        · simp [formatSize, sprintD, K, M, h1, h2, tdiv_eq_div hs]
      · by_cases h3 : s < 1000000000
        · refine ⟨(1000000, "M"), by simp [units], Or.inl (by simpa using h2), ?_, ?_⟩
          · intro v hv hle
            simp only [units, List.mem_cons, List.mem_singleton, List.not_mem_nil, or_false] at hv
            rcases hv with rfl | rfl | rfl | rfl | rfl | rfl <;> dsimp only at hle ⊢ <;> omega
          · simp [formatSize, sprintD, K, M, G, h1, h2, h3, tdiv_eq_div hs]
        · by_cases h4 : s < 1000000000000
          · refine ⟨(1000000000, "G"), by simp [units], Or.inl (by simpa using h3), ?_, ?_⟩
            · intro v hv hle
              simp only [units, List.mem_cons, List.mem_singleton, List.not_mem_nil, or_false] at hv
              rcases hv with rfl | rfl | rfl | rfl | rfl | rfl <;> dsimp only at hle ⊢ <;> omega
            · simp [formatSize, sprintD, K, M, G, T, h1, h2, h3, h4, tdiv_eq_div hs]
          · by_cases h5 : s < 1000000000000000
            · refine ⟨(1000000000000, "T"), by simp [units], Or.inl (by simpa using h4), ?_, ?_⟩
              · intro v hv hle
                simp only [units, List.mem_cons, List.mem_singleton, List.not_mem_nil, or_false] at hv
                rcases hv with rfl | rfl | rfl | rfl | rfl | rfl <;> dsimp only at hle ⊢ <;> omega
              · simp [formatSize, sprintD, K, M, G, T, P, h1, h2, h3, h4, h5, tdiv_eq_div hs]
            · refine ⟨(1000000000000000, "P"), by simp [units], Or.inl (by simpa using h5), ?_, ?_⟩
              · intro v hv hle
                simp only [units, List.mem_cons, List.mem_singleton, List.not_mem_nil, or_false] at hv
                rcases hv with rfl | rfl | rfl | rfl | rfl | rfl <;> dsimp only <;> omega
              · simp [formatSize, sprintD, K, M, G, T, P, h1, h2, h3, h4, h5, tdiv_eq_div hs]
  · intro h1
    simp [formatSize, sprintD, K, h1]
  · intro h
    have h1 : ¬ s < 1000 := by omega
    have h2 : ¬ s < 1000000 := by omega
    have h3 : ¬ s < 1000000000 := by omega
    have h4 : ¬ s < 1000000000000 := by omega
    have h5 : ¬ s < 1000000000000000 := by omega
    simp [formatSize, sprintD, K, M, G, T, P, h1, h2, h3, h4, h5, tdiv_eq_div hs]

theorem formatSize_human_witness :
    (0 : Int) ≤ 2500 ∧
    ((∃ u ∈ units, (u.1 ≤ (2500 : Int) ∨ (u.1 = 1 ∧ (2500 : Int) < 1000))
        ∧ (∀ v ∈ units, v.1 ≤ (2500 : Int) → v.1 ≤ u.1)
        ∧ formatSize true 2500 = toString ((2500 : Int) / u.1) ++ u.2)
      ∧ ((2500 : Int) < 1000 → formatSize true 2500 = toString (2500 : Int))
      ∧ formatSize true 1000 = "1K"
      ∧ formatSize true 999999 = "999K"
      ∧ formatSize true 1000000 = "1M"
      ∧ ((1000000000000000000 : Int) ≤ 2500 →
          formatSize true 2500 = toString ((2500 : Int) / 1000000000000000) ++ "P")) :=
  ⟨by decide, formatSize_human 2500 (by decide)⟩

/-! ## The dispatcher -/

theorem launchStep_eq (fl : Flags) (sched : String → List dirInfo → List dirInfo)
    (hs : ∀ d l, (sched d l).Perm l) (stat : String → Option Entry) (st : Launch)
    (path : String) :
    launchStep fl sched stat st path =
      { msgs := st.msgs ++ (sentFor stat path).toList
        out := st.out ++ (inlineFor stat path).toList } := by
  unfold launchStep sentFor inlineFor
  cases hst : stat path with
  | none => simp
  | some e =>
    cases hd : e.IsDir with
    | false => simp [hd]
    | true =>
      obtain ⟨t, ht, hsent, _⟩ := getDirSize_sent fl sched hs path e
      simp [ht, hsent, hd]

theorem launch_eq (fl : Flags) (sched : String → List dirInfo → List dirInfo)
    (hs : ∀ d l, (sched d l).Perm l) (stat : String → Option Entry) (paths : List String)
    (st : Launch) :
    paths.foldl (launchStep fl sched stat) st =
      { msgs := st.msgs ++ paths.filterMap (sentFor stat)
        out := st.out ++ paths.filterMap (inlineFor stat) } := by
  induction paths generalizing st with
  | nil => simp
  | cons p ps ih =>
    rw [List.foldl_cons, launchStep_eq fl sched hs, ih]
    cases h1 : sentFor stat p <;> cases h2 : inlineFor stat p <;>
      simp [List.filterMap_cons, h1, h2]

theorem receive_foldl (fl : Flags) (l : List Msg) (st : MainState)
    (hst : wrap64 st.acc = st.acc) :
    l.foldl (receive fl) st =
      { acc := wrap64 (st.acc + ((resultsOf l).map dirInfo.size).sum)
        out := st.out ++ (resultsOf l).map (dirLine fl)
        log := st.log ++ errsOf l } := by
  induction l generalizing st with
  | nil => simp [resultsOf, errsOf, hst]
  | cons m l ih =>
    cases m with
    | result d =>
      rw [List.foldl_cons, ih _ (by simpa [receive] using wrap64_wrap64 _)]
      simp [receive, resultsOf, errsOf, List.filterMap_cons, wrap64_add_wrap64_left, add_assoc]
    | err e =>
      rw [List.foldl_cons, ih _ (by simpa [receive] using hst)]
      simp [receive, resultsOf, errsOf, List.filterMap_cons]

theorem mainLoop_eq (fl : Flags) (n : Nat) (l : List Msg) (st : MainState) :
    mainLoop fl n l st = ((l.take n).foldl (receive fl) st, decide (n ≤ l.length)) := by
  induction n generalizing l st with
  | zero => simp [mainLoop]
  | succ n ih =>
    cases l with
    | nil => simp [mainLoop]
    | cons m l => simp [mainLoop, ih]

theorem length_filterMap_sentFor (stat : String → Option Entry) (paths : List String) :
    (paths.filterMap (sentFor stat)).length ≤ paths.length :=
  List.length_filterMap_le _ _

/-- What a run of the dispatcher does, whatever the order of arrival. -/
theorem dispatcher_eq (fl : Flags) (sched : String → List dirInfo → List dirInfo)
    (arrive : List Msg → List Msg) (stat : String → Option Entry) (paths : List String)
    (hs : ∀ d l, (sched d l).Perm l) (ha : ∀ l, (arrive l).Perm l) :
    dispatcher fl sched arrive stat paths =
      { iterations := paths.length
        msgs := paths.filterMap (sentFor stat)
        acc := wrap64 (((resultsOf (arrive (paths.filterMap (sentFor stat)))).map
                dirInfo.size).sum)
        out := (paths.filterMap (inlineFor stat)
            ++ (resultsOf (arrive (paths.filterMap (sentFor stat)))).map (dirLine fl))
            ++ (if paths.length ≤ (paths.filterMap (sentFor stat)).length then
                [totalLine fl (wrap64 (((resultsOf (arrive (paths.filterMap
                  (sentFor stat)))).map dirInfo.size).sum))]
              else [])
        log := errsOf (arrive (paths.filterMap (sentFor stat)))
        returned := decide (paths.length ≤ (paths.filterMap (sentFor stat)).length) } := by
  have hlen : (arrive (paths.filterMap (sentFor stat))).length
      = (paths.filterMap (sentFor stat)).length := (ha _).length_eq
  have htake : (arrive (paths.filterMap (sentFor stat))).take paths.length
      = arrive (paths.filterMap (sentFor stat)) :=
    List.take_of_length_le (by rw [hlen]; exact length_filterMap_sentFor stat paths)
  unfold dispatcher
  simp only [launch_eq fl sched hs, mainLoop_eq, htake, hlen, List.nil_append]
  have h0 : wrap64 0 = 0 := by decide
  rw [receive_foldl fl _ _ h0]
  by_cases h : paths.length ≤ (paths.filterMap (sentFor stat)).length <;> simp [h]

/-! ## Claims about the dispatcher -/

/-- C2, at a failing input.  Asked for the single path `notes.txt`, a regular file, `main`
sets its second loop to one iteration while no goroutine was started and no message will
ever be sent: the loop blocks in its first `select` and `main` never returns.  The number
of iterations therefore counts a path that is not a directory. -/
theorem dispatcher_waits_for_regular_file :
    (dispatcher ⟨false, false⟩ inOrder id exampleStat ["notes.txt"]).iterations = 1
      ∧ (dispatcher ⟨false, false⟩ inOrder id exampleStat ["notes.txt"]).msgs = []
      ∧ (dispatcher ⟨false, false⟩ inOrder id exampleStat ["notes.txt"]).returned = false
      ∧ (dispatcher ⟨false, false⟩ inOrder id exampleStat ["notes.txt"]).out
          = ["Error: \"notes.txt\" is not a directory. Please specify directories only!\n"] := by
  decide

/-- C5: when every requested path is an existing directory, `main` returns, it received
one result per path, and what it printed is one line per result received followed by the
cumulative line, whose size is `formatSize` of the exact sum of the sizes of the results
received, in whatever order they arrived, provided that sum fits an `int64`. -/
theorem cumulative_total (fl : Flags) (sched : String → List dirInfo → List dirInfo)
    (arrive : List Msg → List Msg) (stat : String → Option Entry) (paths : List String)
    (hs : ∀ d l, (sched d l).Perm l) (ha : ∀ l, (arrive l).Perm l)
    (hdirs : ∀ p ∈ paths, ∃ e, stat p = some e ∧ e.IsDir = true)
    (hfit : inInt64 (((resultsOf (arrive (dispatcher fl sched arrive stat paths).msgs)).map
      dirInfo.size).sum)) :
    (dispatcher fl sched arrive stat paths).returned = true
      ∧ (resultsOf (dispatcher fl sched arrive stat paths).msgs).map dirInfo.path = paths
      ∧ (resultsOf (arrive (dispatcher fl sched arrive stat paths).msgs)).Perm
          (resultsOf (dispatcher fl sched arrive stat paths).msgs)
      ∧ (dispatcher fl sched arrive stat paths).out
          = (resultsOf (arrive (dispatcher fl sched arrive stat paths).msgs)).map (dirLine fl)
            ++ ["The cumulative size of all specified directories is "
              ++ formatSize fl.humanReadable
                  (((resultsOf (arrive (dispatcher fl sched arrive stat paths).msgs)).map
                    dirInfo.size).sum)
              ++ " bytes.\n"] := by
  have hsent : ∀ p ∈ paths, ∃ d, sentFor stat p = some (Msg.result d) ∧ d.path = p := by
    intro p hp
    obtain ⟨e, he, hd⟩ := hdirs p hp
    exact ⟨{ path := p, size := wrap64 (doubledSize e) }, by simp [sentFor, he, hd], rfl⟩
  have hinl : paths.filterMap (inlineFor stat) = [] := by
    rw [List.filterMap_eq_nil_iff]
    intro p hp
    obtain ⟨e, he, hd⟩ := hdirs p hp
    simp [inlineFor, he, hd]
  have hlen : (paths.filterMap (sentFor stat)).length = paths.length := by
    clear hfit hinl
    induction paths with
    | nil => rfl
    | cons p ps ih =>
      obtain ⟨d, hd, _⟩ := hsent p (List.mem_cons_self _ _)
      have := ih (fun q hq => hdirs q (List.mem_cons_of_mem _ hq))
        (fun q hq => hsent q (List.mem_cons_of_mem _ hq))
      simp [List.filterMap_cons, hd, this]
  have hpaths : (resultsOf (paths.filterMap (sentFor stat))).map dirInfo.path = paths := by
    clear hfit hinl hlen
    induction paths with
    | nil => rfl
    | cons p ps ih =>
      obtain ⟨d, hd, hp⟩ := hsent p (List.mem_cons_self _ _)
      have := ih (fun q hq => hdirs q (List.mem_cons_of_mem _ hq))
        (fun q hq => hsent q (List.mem_cons_of_mem _ hq))
      simp only [resultsOf] at this ⊢
      simp [List.filterMap_cons, hd, hp, this]
  rw [dispatcher_eq fl sched arrive stat paths hs ha] at hfit ⊢
  simp only at hfit ⊢
  refine ⟨by simp [hlen], hpaths, (ha _).filterMap _, ?_⟩
  rw [wrap64_of_inInt64 hfit, hinl]
  simp [hlen, totalLine]

theorem cumulative_total_witness :
    (∀ d l, (inOrder d l).Perm l) ∧ (∀ l : List Msg, (id l).Perm l)
      ∧ (∀ p ∈ ["A"], ∃ e, exampleStat p = some e ∧ e.IsDir = true)
      ∧ inInt64 (((resultsOf (id (dispatcher ⟨false, true⟩ inOrder id exampleStat
          ["A"]).msgs)).map dirInfo.size).sum)
      ∧ ((dispatcher ⟨false, true⟩ inOrder id exampleStat ["A"]).returned = true
        ∧ (resultsOf (dispatcher ⟨false, true⟩ inOrder id exampleStat ["A"]).msgs).map
            dirInfo.path = ["A"]
        ∧ (resultsOf (id (dispatcher ⟨false, true⟩ inOrder id exampleStat ["A"]).msgs)).Perm
            (resultsOf (dispatcher ⟨false, true⟩ inOrder id exampleStat ["A"]).msgs)
        ∧ (dispatcher ⟨false, true⟩ inOrder id exampleStat ["A"]).out
            = (resultsOf (id (dispatcher ⟨false, true⟩ inOrder id exampleStat ["A"]).msgs)).map
                (dirLine ⟨false, true⟩)
              ++ ["The cumulative size of all specified directories is "
                ++ formatSize (Flags.mk false true).humanReadable
                    (((resultsOf (id (dispatcher ⟨false, true⟩ inOrder id exampleStat
                      ["A"]).msgs)).map dirInfo.size).sum)
                ++ " bytes.\n"]) :=
  have h1 : ∀ d l, (inOrder d l).Perm l := fun _ l => List.Perm.refl l
  have h2 : ∀ l : List Msg, (id l).Perm l := fun l => List.Perm.refl l
  have h3 : ∀ p ∈ ["A"], ∃ e, exampleStat p = some e ∧ e.IsDir = true := by
    intro p hp
    rw [List.mem_singleton] at hp
    subst hp
    exact ⟨exampleA, rfl, rfl⟩
  have h4 : inInt64 (((resultsOf (id (dispatcher ⟨false, true⟩ inOrder id exampleStat
      ["A"]).msgs)).map dirInfo.size).sum) := by decide
  ⟨h1, h2, h3, h4, cumulative_total ⟨false, true⟩ inOrder id exampleStat ["A"] h1 h2 h3 h4⟩

/-- C6: for every list of requested paths, a path that `os.Stat` does not find makes the
first loop start one goroutine that sends one text on `errs` and nothing on `results`, and
print nothing.  Over the whole list the texts sent on `errs` are as many as the missing
paths, the results sent are those of the paths that are directories, one each, every text
is logged once (as many lines logged as missing paths), and `acc` ends as the sum of the
sizes of the directories alone (reduced to `int64`).  When no path is a regular file, `main`
returns and its last line is the cumulative line for that `acc`. -/
theorem missing_path_reported_once (fl : Flags)
    (sched : String → List dirInfo → List dirInfo) (arrive : List Msg → List Msg)
    (stat : String → Option Entry) (paths : List String)
    (hs : ∀ d l, (sched d l).Perm l) (ha : ∀ l, (arrive l).Perm l) :
    (∀ (st : Launch) (p : String), stat p = none →
        ∃ e, launchStep fl sched stat st p = { msgs := st.msgs ++ [Msg.err e], out := st.out })
      ∧ (errsOf (dispatcher fl sched arrive stat paths).msgs).length
          = (paths.filter fun p => (stat p).isNone).length
      ∧ resultsOf (dispatcher fl sched arrive stat paths).msgs
          = paths.filterMap (resultFor stat)
      ∧ (dispatcher fl sched arrive stat paths).log.Perm
          (errsOf (dispatcher fl sched arrive stat paths).msgs)
      ∧ (dispatcher fl sched arrive stat paths).acc
          = wrap64 (((paths.filterMap (resultFor stat)).map dirInfo.size).sum)
      ∧ ((∀ p ∈ paths, ∀ e, stat p = some e → e.IsDir = true) →
          (dispatcher fl sched arrive stat paths).returned = true
            ∧ (dispatcher fl sched arrive stat paths).out.getLast?
                = some (totalLine fl
                    (wrap64 (((paths.filterMap (resultFor stat)).map dirInfo.size).sum)))) := by
  have herrs : (errsOf (paths.filterMap (sentFor stat))).length
      = (paths.filter fun p => (stat p).isNone).length := by
    induction paths with
    | nil => rfl
    | cons p ps ih =>
      simp only [errsOf] at ih ⊢
      cases hst : stat p with
      | none => simp [List.filterMap_cons, List.filter_cons, sentFor, hst, ih]
      | some e =>
        cases hd : e.IsDir <;> simp [List.filterMap_cons, List.filter_cons, sentFor, hst, hd, ih]
  have hres : resultsOf (paths.filterMap (sentFor stat)) = paths.filterMap (resultFor stat) := by
    clear herrs
    induction paths with
    | nil => rfl
    | cons p ps ih =>
      simp only [resultsOf] at ih ⊢
      cases hst : stat p with
      | none => simp [List.filterMap_cons, sentFor, resultFor, hst, ih]
      | some e =>
        cases hd : e.IsDir <;> simp [List.filterMap_cons, sentFor, resultFor, hst, hd, ih]
  have hsum : ((resultsOf (arrive (paths.filterMap (sentFor stat)))).map dirInfo.size).sum
      = ((paths.filterMap (resultFor stat)).map dirInfo.size).sum := by
    rw [← hres]
    exact (((ha _).filterMap _).map _).sum_eq
  refine ⟨?_, ?_⟩
  · intro st p hp
    exact ⟨missingLine p, by simp [launchStep, hp]⟩
  rw [dispatcher_eq fl sched arrive stat paths hs ha]
  simp only
  refine ⟨herrs, hres, (ha _).filterMap _, by rw [hsum], ?_⟩
  intro hall
  have hlen : (paths.filterMap (sentFor stat)).length = paths.length := by
    clear herrs hres hsum
    induction paths with
    | nil => rfl
    | cons p ps ih =>
      have := ih fun q hq => hall q (List.mem_cons_of_mem _ hq)
      cases hst : stat p with
      | none => simp [List.filterMap_cons, sentFor, hst, this]
      | some e =>
        have hd := hall p (List.mem_cons_self _ _) e hst
        simp [List.filterMap_cons, sentFor, hst, hd, this]
  simp [hlen, hsum]

theorem missing_path_reported_once_witness :
    (∀ d l, (inOrder d l).Perm l) ∧ (∀ l : List Msg, (id l).Perm l)
      ∧ exampleStat "gone" = none
      ∧ (∀ p ∈ ["gone", "A"], ∀ e, exampleStat p = some e → e.IsDir = true)
      ∧ (∃ e, launchStep ⟨false, true⟩ inOrder exampleStat { msgs := [], out := [] } "gone"
          = { msgs := [] ++ [Msg.err e], out := [] })
      ∧ (dispatcher ⟨false, true⟩ inOrder id exampleStat ["gone", "A"]).acc
          = wrap64 (((["gone", "A"].filterMap (resultFor exampleStat)).map dirInfo.size).sum)
      ∧ (dispatcher ⟨false, true⟩ inOrder id exampleStat ["gone", "A"]).returned = true
      ∧ (dispatcher ⟨false, true⟩ inOrder id exampleStat ["gone", "A"]).out.getLast?
          = some (totalLine ⟨false, true⟩
              (wrap64 (((["gone", "A"].filterMap (resultFor exampleStat)).map
                dirInfo.size).sum))) :=
  have h1 : ∀ d l, (inOrder d l).Perm l := fun _ l => List.Perm.refl l
  have h2 : ∀ l : List Msg, (id l).Perm l := fun l => List.Perm.refl l
  have h3 : exampleStat "gone" = none := rfl
  have h4 : ∀ p ∈ ["gone", "A"], ∀ e, exampleStat p = some e → e.IsDir = true := by
    intro p hp e he
    simp only [List.mem_cons, List.mem_singleton, List.not_mem_nil, or_false] at hp
    rcases hp with rfl | rfl
    · rw [h3] at he; exact absurd he (by simp)
    · have h5 : exampleStat "A" = some exampleA := rfl
      rw [h5] at he
      cases he
      rfl
  have h := missing_path_reported_once ⟨false, true⟩ inOrder id exampleStat ["gone", "A"] h1 h2
  ⟨h1, h2, h3, h4, h.1 { msgs := [], out := [] } "gone" h3, h.2.2.2.2.1,
    (h.2.2.2.2.2 h4).1, (h.2.2.2.2.2 h4).2⟩

/-! ## Claims about getDirSize -/

theorem walkEntries_append (path : String) (a b : List Entry) :
    walkEntries path (a ++ b) = walkEntries path a ++ walkEntries path b := by
  induction a with
  | nil => simp [walkEntries]
  | cons e a ih => simp [walkEntries, ih]

theorem walkEntries_files (path : String) (es : List Entry)
    (h : ∀ e ∈ es, e.IsDir = false) :
    dirsOf (walkEntries path es) = [] ∧ fileSum (walkEntries path es) = directSum es := by
  induction es with
  | nil => simp [walkEntries, dirsOf, fileSum, directSum]
  | cons e es ih =>
    obtain ⟨h1, h2⟩ := ih fun x hx => h x (List.mem_cons_of_mem _ hx)
    have he := h e (List.mem_cons_self _ _)
    cases e with
    | dir n l => simp [Entry.IsDir] at he
    | file n i =>
      have hd : dirsOf (walkEntries path (.file n i :: es)) = dirsOf (walkEntries path es) := rfl
      have hf : fileSum (walkEntries path (.file n i :: es))
          = (Entry.file n i).fileSize + fileSum (walkEntries path es) := by
        cases i <;> simp [walkEntries, walkDir, fileSum, visitSize, Entry.fileSize]
      rw [hd, hf, h1, h2]
      simp [directSum]

/-- C1, at a failing input.  For the end-to-end example of the specification (`A` holds a
file of 500 bytes and the directory `B`, which holds a file of 2000 bytes) `getDirSize`
reports 2000 for `B` and 4500 for `A`, printed "4K" in human mode, where the sum of the
files directly in `A` (500) and of the size reported for its one subdirectory (2000) is
2500, printed "2K": the file of `B` is counted twice in `A`. -/
theorem getDirSize_counts_nested_file_twice :
    (getDirSize ⟨true, true⟩ inOrder "A/B" exampleB).map Task.sent
        = some { path := "A/B", size := 2000 }
      ∧ (getDirSize ⟨true, true⟩ inOrder "A" exampleA).map Task.sent
        = some { path := "A", size := 4500 }
      ∧ directSum exampleA.entries = 500
      ∧ (childDirs exampleA.entries).map Entry.Name = ["B"]
      ∧ formatSize true 4500 = "4K"
      ∧ formatSize true (500 + 2000) = "2K" := by
  decide

/-- C9, at a failing input.  For the chain of directories `A/B/C`, one call of
`getDirSize` on `A` ends its walk with `counter = 2` and has started a goroutine for `A/B`
and one for `A/B/C`, where `A` has one immediate subdirectory; and four calls of
`getDirSize` are made in all, where the tree has three directories. -/
theorem getDirSize_spawns_for_every_descendant :
    (getDirSize ⟨false, false⟩ inOrder "A" exampleChain).map Task.counter = some 2
      ∧ (getDirSize ⟨false, false⟩ inOrder "A" exampleChain).map Task.spawned
        = some ["A/B", "A/B/C"]
      ∧ (childDirs exampleChain.entries).length = 1
      ∧ (getDirSize ⟨false, false⟩ inOrder "A" exampleChain).map Task.calls = some 4
      ∧ exampleChain.dirCount = 3 := by
  decide

theorem filesIn_append (k : Nat) (a b : List Entry) :
    filesIn k (a ++ b) = filesIn k a ++ filesIn k b := by
  induction a with
  | nil => simp [filesIn]
  | cons e a ih => simp [filesIn, ih]

theorem Without.filesIn_eq {es gs : List Entry} (h : Without es gs) :
    ∀ k, filesIn k es = filesIn k gs := by
  induction h with
  | here before after name =>
    intro k
    simp [filesIn_append, filesIn, filesAt]
  | inside before after name _ ih =>
    intro k
    simp [filesIn_append, filesIn, filesAt, ih (k + 1)]

theorem dirsOf_append (a b : List (String × Entry)) : dirsOf (a ++ b) = dirsOf a ++ dirsOf b := by
  simp [dirsOf]

theorem Without.childResult_eq {es gs : List Entry} (h : Without es gs) :
    ∀ path, (dirsOf (walkEntries path es)).map childResult
      = (dirsOf (walkEntries path gs)).map childResult := by
  induction h with
  | here before after name =>
    intro path
    have h1 : dirsOf (walkEntries path (Entry.file name none :: after))
        = dirsOf (walkEntries path after) := rfl
    rw [walkEntries_append, walkEntries_append, dirsOf_append, dirsOf_append, h1]
  | @inside before after name es gs hw ih =>
    intro path
    have h1 : ∀ l, dirsOf (walkEntries path (Entry.dir name l :: after))
        = (joinPath path name, Entry.dir name l)
            :: (dirsOf (walkEntries (joinPath path name) l) ++ dirsOf (walkEntries path after)) := by
      intro l
      simp only [walkEntries, walkDir, Entry.Name, List.cons_append]
      rw [← dirsOf_append]
      unfold dirsOf
      rw [List.filter_cons]
      simp [Entry.IsDir]
    have h2 : childResult (joinPath path name, Entry.dir name es)
        = childResult (joinPath path name, Entry.dir name gs) := by
      simp [childResult, doubledSize, Entry.entries, hw.filesIn_eq 0]
    rw [walkEntries_append, walkEntries_append, dirsOf_append, dirsOf_append, h1, h1]
    simp only [List.map_append, List.map_cons, h2, ih (joinPath path name)]

/-- C7: take out of a directory one entry that is not a directory and whose `Info()`
fails, among its own entries or at any depth below them (`Without`).  A call of
`getDirSize` on the directory returns with that entry and without it, and sends the same
value (the entry adds 0 to the size), ends its walk with the same `counter`, starts
goroutines for the same directories and prints the same lines: the entries visited
before and after the failing one are all counted. -/
theorem stat_failure_contributes_nothing (fl : Flags)
    (sched : String → List dirInfo → List dirInfo) (hs : ∀ d l, (sched d l).Perm l)
    (dir name : String) (es gs : List Entry) (h : Without es gs) :
    ∃ t u, getDirSize fl sched dir (.dir name es) = some t
      ∧ getDirSize fl sched dir (.dir name gs) = some u
      ∧ t.sent = u.sent ∧ t.counter = u.counter ∧ t.spawned = u.spawned
      ∧ t.printed = u.printed := by
  obtain ⟨t, ht, ht1, ht2, ht3, ht4⟩ := getDirSizeFuel_sent fl sched hs
    ((Entry.dir name es).height + 1) dir (.dir name es) (Nat.lt_succ_self _)
  obtain ⟨u, hu, hu1, hu2, hu3, hu4⟩ := getDirSizeFuel_sent fl sched hs
    ((Entry.dir name gs).height + 1) dir (.dir name gs) (Nat.lt_succ_self _)
  have hc := h.childResult_eq dir
  have hpath : ∀ l : List (String × Entry), l.map Prod.fst = (l.map childResult).map dirInfo.path := by
    intro l; simp [childResult, Function.comp_def]
  refine ⟨t, u, ht, hu, ?_, ?_, ?_, ?_⟩
  · rw [ht1, hu1]
    simp [doubledSize, Entry.entries, h.filesIn_eq 0]
  · rw [ht2, hu2]
    simpa using congrArg List.length hc
  · rw [ht3, hu3, hpath, hpath]
    exact congrArg _ hc
  · rw [ht4, hu4]
    simp only [Entry.entries] at hc ⊢
    rw [hc]

theorem stat_failure_contributes_nothing_witness :
    (∀ d l, (inOrder d l).Perm l)
      ∧ Without ([.file "f" (some 500)] ++ Entry.file "broken" none :: [exampleB])
          ([.file "f" (some 500)] ++ [exampleB])
      ∧ ∃ t u, getDirSize ⟨true, false⟩ inOrder "A"
            (.dir "A" ([.file "f" (some 500)] ++ Entry.file "broken" none :: [exampleB])) = some t
        ∧ getDirSize ⟨true, false⟩ inOrder "A"
            (.dir "A" ([.file "f" (some 500)] ++ [exampleB])) = some u
        ∧ t.sent = u.sent ∧ t.counter = u.counter ∧ t.spawned = u.spawned
        ∧ t.printed = u.printed :=
  have h1 : ∀ d l, (inOrder d l).Perm l := fun _ l => List.Perm.refl l
  have h2 : Without ([.file "f" (some 500)] ++ Entry.file "broken" none :: [exampleB])
      ([.file "f" (some 500)] ++ [exampleB]) := Without.here _ _ _
  ⟨h1, h2, stat_failure_contributes_nothing ⟨true, false⟩ inOrder h1 "A" "A" _ _ h2⟩

/-- C8 fails as stated: on a directory whose two files have 2^62 bytes each, and no
subdirectory, `getDirSize` sends the size -2^63, and the sum of the sizes of the files is
2^63. -/
theorem leaf_directory_sum_overflows :
    (∀ e ∈ exampleHuge.entries, e.IsDir = false)
      ∧ (getDirSize ⟨false, false⟩ inOrder "D" exampleHuge).map Task.sent
        = some { path := "D", size := -9223372036854775808 }
      ∧ directSum exampleHuge.entries = 9223372036854775808 := by
  decide

/-- C8, amended: on a directory with no subdirectory, `getDirSize` ends its walk with
`counter = 0`, starts no goroutine, waits for no result, prints nothing and sends one
result, whose path is the directory it was given and whose size is the sum of the sizes of
the files of the directory whose `Info()` succeeds, provided that sum fits an `int64`.  On an
empty directory the size sent is 0.  This holds for every order of arrival. -/
theorem leaf_directory (fl : Flags) (sched : String → List dirInfo → List dirInfo)
    (dir name : String) (es : List Entry) (hfiles : ∀ e ∈ es, e.IsDir = false)
    (hfit : inInt64 (directSum es)) :
    getDirSize fl sched dir (.dir name es)
        = some { counter := 0, spawned := [], printed := []
                 sent := { path := dir, size := directSum es }, calls := 1 }
      ∧ getDirSize fl sched dir (.dir name [])
        = some { counter := 0, spawned := [], printed := []
                 sent := { path := dir, size := 0 }, calls := 1 } := by
  obtain ⟨h1, h2⟩ := walkEntries_files dir es hfiles
  constructor
  · simp only [getDirSize, Entry.height, getDirSizeFuel, walk_state, Entry.entries, h1, h2,
      wrap64_of_inInt64 hfit, List.length_nil, List.map_nil, allSome, collect, List.sum_nil]
    rfl
  · simp only [getDirSize, Entry.height, getDirSizeFuel, walk_state, Entry.entries, walkEntries,
      dirsOf, fileSum, List.filter_nil, List.length_nil, List.map_nil, allSome, collect,
      List.sum_nil]
    rfl

theorem leaf_directory_witness :
    (∀ e ∈ [Entry.file "g" (some 2000), Entry.file "broken" none], e.IsDir = false)
      ∧ inInt64 (directSum [Entry.file "g" (some 2000), Entry.file "broken" none])
      ∧ (getDirSize ⟨true, true⟩ inOrder "A/B"
            (.dir "B" [Entry.file "g" (some 2000), Entry.file "broken" none])
          = some { counter := 0, spawned := [], printed := []
                   sent := { path := "A/B",
                             size := directSum [Entry.file "g" (some 2000),
                               Entry.file "broken" none] },
                   calls := 1 }
        ∧ getDirSize ⟨true, true⟩ inOrder "A/B" (.dir "B" [])
          = some { counter := 0, spawned := [], printed := []
                   sent := { path := "A/B", size := 0 }, calls := 1 }) :=
  have h1 : ∀ e ∈ [Entry.file "g" (some 2000), Entry.file "broken" none], e.IsDir = false := by
    intro e he
    simp only [List.mem_cons, List.mem_singleton, List.not_mem_nil, or_false] at he
    rcases he with rfl | rfl <;> rfl
  have h2 : inInt64 (directSum [Entry.file "g" (some 2000), Entry.file "broken" none]) := by
    decide
  ⟨h1, h2, leaf_directory ⟨true, true⟩ inOrder "A/B" "B" _ h1 h2⟩

/-- C10 fails as stated: on a directory `A` whose only entry is a directory `B` with one
file of 2^62 bytes, every `Info()` succeeding, `getDirSize` sends the size -2^63 for `A`,
and the sum of `size * 2 ^ k` over the files below `A` is 2^62 * 2 = 2^63. -/
theorem doubled_size_overflows :
    (getDirSize ⟨false, false⟩ inOrder "A" exampleDeep).map Task.sent
        = some { path := "A", size := -9223372036854775808 }
      ∧ filesIn 0 exampleDeep.entries = [(4611686018427387904, 1)]
      ∧ doubledSize exampleDeep = 9223372036854775808 := by
  decide

/-- C10, amended: `filepath.WalkDir` visiting every descendant of its root, for every
finite directory tree `getDirSize` returns, and the size it reports for `root` is the sum
over the files `f` below `root` of `size f * 2 ^ k f`, with `k f` the number of directories
strictly between `root` and `f`, provided that sum fits an `int64`, in whatever order the
results of the goroutines arrive.  That sum is the sum of the sizes of all the files below
`root` plus the same sum taken at every directory below `root`, not only at the immediate
ones.  (A file whose `Info()` fails is left out of the sums.) -/
theorem getDirSize_reports_doubled_size (fl : Flags)
    (sched : String → List dirInfo → List dirInfo) (hs : ∀ d l, (sched d l).Perm l)
    (dir : String) (root : Entry) (hfit : inInt64 (doubledSize root)) :
    (∃ t, getDirSize fl sched dir root = some t
        ∧ t.sent = { path := dir
                     size := ((filesIn 0 root.entries).map fun f => f.1 * 2 ^ f.2).sum })
      ∧ ((filesIn 0 root.entries).map fun f => f.1 * 2 ^ f.2).sum
          = ((walkEntries dir root.entries).map visitSize).sum
            + (((walkEntries dir root.entries).filter fun v => v.2.IsDir).map
                fun v => doubledSize v.2).sum := by
  obtain ⟨t, ht, hsent, _⟩ := getDirSize_sent fl sched hs dir root
  refine ⟨⟨t, ht, ?_⟩, doubledSize_eq dir root⟩
  rw [hsent, wrap64_of_inInt64 hfit]
  rfl

theorem getDirSize_reports_doubled_size_witness :
    (∀ d l, (inOrder d l).Perm l) ∧ inInt64 (doubledSize exampleA)
      ∧ (∃ t, getDirSize ⟨true, true⟩ inOrder "A" exampleA = some t
          ∧ t.sent = { path := "A"
                       size := ((filesIn 0 exampleA.entries).map fun f => f.1 * 2 ^ f.2).sum })
      ∧ ((filesIn 0 exampleA.entries).map fun f => f.1 * 2 ^ f.2).sum = 500 + 2000 * 2 :=
  have h1 : ∀ d l, (inOrder d l).Perm l := fun _ l => List.Perm.refl l
  have h2 : inInt64 (doubledSize exampleA) := by decide
  ⟨h1, h2, (getDirSize_reports_doubled_size ⟨true, true⟩ inOrder h1 "A" exampleA h2).1,
    by decide⟩

end Ford
